import Mathlib

/-!
Verification development for the smegmascript repository: a shallow
embedding of its HTTP budget ledger (http-limiter.js), sandbox engine
(sandbox.js), command parser (command-parser.js) and bot worker
(bot-worker.js), with theorems settling the specification claims.

Timestamps are embedded as integers (JS Date.now() milliseconds).
JS Map objects keyed by strings are embedded as functions from String,
with the source's missing-key default baked in.
-/

namespace Smegmascript

/-! ## HTTP budget ledger (src: http-limiter.js, class HttpLimiter) -/

/-- One recorded request: the source pushes objects of shape
`timestamp, evalId` onto the per-channel history list. -/
structure HttpEntry where
  timestamp : Int
  evalId : Nat
deriving DecidableEq, Repr

/-- State of an HttpLimiter instance.  `requests` embeds the JS Map
from channel to history list; a channel absent from the Map reads as
the empty list in the source (the `|| []` defaults), which the function
representation bakes in.  `evalRequestCount` is assigned by startEval
but never read anywhere else in the source; it is kept for fidelity. -/
structure HttpLimiter where
  requestsPerEval : Nat
  requestInterval : Nat
  requestLimit : Nat
  postLimit : Nat
  transferLimit : Nat
  timeLimit : Nat
  requests : String → List HttpEntry
  currentEvalId : Nat
  evalRequestCount : Nat

/-- Constructor options for HttpLimiter.  Each field is combined with
its default through JS short-circuit or (`options.x || default`). -/
structure HttpOptions where
  requestsPerEval : Option Nat := none
  requestInterval : Option Nat := none
  requestLimit : Option Nat := none
  postLimit : Option Nat := none
  transferLimit : Option Nat := none
  timeLimit : Option Nat := none

/-- JS `options.x || d` for a numeric option: undefined or 0 both fall
back to the default because 0 is falsy. -/
def jsOrDefault (v : Option Nat) (d : Nat) : Nat :=
  match v with
  | none => d
  | some n => if n = 0 then d else n

/-- The HttpLimiter constructor (defaults 5 / 60 s / 25 / 150000 /
150000 / 5000), with an empty request Map and eval id 0. -/
def mkHttpLimiter (o : HttpOptions) : HttpLimiter where
  requestsPerEval := jsOrDefault o.requestsPerEval 5
  requestInterval := jsOrDefault o.requestInterval 60
  requestLimit := jsOrDefault o.requestLimit 25
  postLimit := jsOrDefault o.postLimit 150000
  transferLimit := jsOrDefault o.transferLimit 150000
  timeLimit := jsOrDefault o.timeLimit 5000
  requests := fun _ => []
  currentEvalId := 0
  evalRequestCount := 0

namespace HttpLimiter

/-- `this.requests.set(channel, l)` : pointwise Map update. -/
def setChannel (st : HttpLimiter) (channel : String) (l : List HttpEntry) : HttpLimiter :=
  { st with requests := fun c => if c = channel then l else st.requests c }

/-- `startEval()` : bump the eval id and reset the (otherwise unused)
per-eval counter. -/
def startEval (st : HttpLimiter) : HttpLimiter :=
  { st with currentEvalId := st.currentEvalId + 1, evalRequestCount := 0 }

/-- The error message thrown when the per-eval budget is exhausted. -/
def perEvalMsg (st : HttpLimiter) : String :=
  "Too many HTTP requests in this eval (max " ++ toString st.requestsPerEval ++ " requests)"

/-- The error message thrown when the rolling-window budget is exhausted. -/
def windowMsg (st : HttpLimiter) : String :=
  "Too many HTTP requests (max " ++ toString st.requestLimit ++ " requests in "
    ++ toString st.requestInterval ++ " seconds)"

/-- `checkLimits(channel)` at wall-clock time `now`.  Mirrors the
source statement by statement: prune to the rolling window, count the
current eval's share, throw on either limit, and only then persist the
pruned list back into the Map.  A thrown error leaves the Map untouched
because the `set` is the last statement. -/
def checkLimits (st : HttpLimiter) (now : Int) (channel : String) :
    Except String HttpLimiter :=
  let requests := st.requests channel
  let threshold := now - (st.requestInterval : Int) * 1000
  let recentRequests := requests.filter (fun r => threshold ≤ r.timestamp)
  let evalRequests := recentRequests.filter (fun r => r.evalId = st.currentEvalId)
  if st.requestsPerEval ≤ evalRequests.length then
    .error st.perEvalMsg
  else if st.requestLimit ≤ recentRequests.length then
    .error st.windowMsg
  else
    .ok (st.setChannel channel recentRequests)

/-- `recordRequest(channel)` at time `now`: append an entry carrying the
current eval id. -/
def recordRequest (st : HttpLimiter) (now : Int) (channel : String) : HttpLimiter :=
  st.setChannel channel (st.requests channel ++ [⟨now, st.currentEvalId⟩])

/-- `validatePostBody(body)` : Buffer.byteLength(body, utf8) against the
POST body limit. -/
def validatePostBody (st : HttpLimiter) (body : String) : Except String Unit :=
  if st.postLimit < body.utf8ByteSize then
    .error ("POST body exceeds " ++ toString st.postLimit ++ " bytes")
  else
    .ok ()

end HttpLimiter

/-- The ledger portion of the sandbox's injected `_fetch` capability
(sandbox.js, setupGlobals): `checkLimits(channel)` followed on success
by `recordRequest(channel)`.  The two Date.now() reads are the separate
times `tCheck` and `tRecord`. -/
def fetchLedger (st : HttpLimiter) (tCheck tRecord : Int) (channel : String) :
    Except String HttpLimiter := do
  let st1 ← st.checkLimits tCheck channel
  pure (st1.recordRequest tRecord channel)

/-- The ledger portion of the sandbox's injected `_post` capability
(sandbox.js, setupGlobals): in the source the order is
`checkLimits(channel); validatePostBody(body); recordRequest(channel)`. -/
def postLedger (st : HttpLimiter) (tCheck tRecord : Int) (channel : String)
    (body : String) : Except String HttpLimiter := do
  let st1 ← st.checkLimits tCheck channel
  let _ ← st1.validatePostBody body
  pure (st1.recordRequest tRecord channel)

/-- Modelled from the spec for comparison with `postLedger` (spec 4.4:
"Calls validatePostBody(body) first, then the same check/record
sequence").  Used only to exhibit the divergence in ordering. -/
def postLedgerSpecOrder (st : HttpLimiter) (tCheck tRecord : Int) (channel : String)
    (body : String) : Except String HttpLimiter := do
  let _ ← st.validatePostBody body
  let st1 ← st.checkLimits tCheck channel
  pure (st1.recordRequest tRecord channel)

/-- A limiter state whose per-eval budget is exhausted and whose POST
body limit is 3 bytes (used to exhibit the `_post` ordering). -/
def c7Limiter : HttpLimiter :=
  { requestsPerEval := 1, requestInterval := 60, requestLimit := 25,
    postLimit := 3, transferLimit := 150000, timeLimit := 5000,
    requests := fun _ => [⟨0, 1⟩],
    currentEvalId := 1, evalRequestCount := 0 }

/-- One ledger operation in a history: an attempt is a
checkLimits/recordRequest pair (the record happening only when the
check did not throw), and newEval is a startEval call. -/
inductive LedgerOp where
  | attempt (channel : String) (tCheck tRecord : Int)
  | newEval
deriving Repr

/-- Execute one ledger operation; a thrown checkLimits leaves the state
as it was (the exception propagates out of the capability closure
before any further mutation). -/
def LedgerOp.step (st : HttpLimiter) : LedgerOp → HttpLimiter
  | .attempt channel tCheck tRecord =>
    match st.checkLimits tCheck channel with
    | .ok st1 => st1.recordRequest tRecord channel
    | .error _ => st
  | .newEval => st.startEval

/-- Run a sequence of ledger operations. -/
def runLedger (st : HttpLimiter) (ops : List LedgerOp) : HttpLimiter :=
  ops.foldl LedgerOp.step st

/-- Number of entries of a history whose timestamps lie in the closed
interval from `a` to `a + w`. -/
def windowCount (l : List HttpEntry) (a w : Int) : Nat :=
  (l.filter (fun e => a ≤ e.timestamp ∧ e.timestamp ≤ a + w)).length

/-- Iterate the fetch ledger sequence over a list of call times (used to
state the per-eval budget boundary). -/
def fetchSeq (st : HttpLimiter) (ts : List Int) (channel : String) :
    Except String HttpLimiter :=
  ts.foldlM (fun s t => fetchLedger s t t channel) st

/-! ## Command parser: result formatting (src: command-parser.js) -/

/-- A JavaScript value as materialized from the sandbox by vm.dump:
host primitives plus tagged arrays and plain objects. -/
inductive JSVal where
  | undef
  | null
  | bool (b : Bool)
  | num (n : Int)
  | str (s : String)
  | arr (elems : List JSVal)
  | obj (fields : List (String × JSVal))

/-- JS typeof (null, arrays and plain objects all report "object"). -/
def jsTypeOf : JSVal → String
  | .undef => "undefined"
  | .null => "object"
  | .bool _ => "boolean"
  | .num _ => "number"
  | .str _ => "string"
  | .arr _ => "object"
  | .obj _ => "object"

/-- `v !== undefined` as used by formatResult and index.js. -/
def JSVal.isUndef : JSVal → Bool
  | .undef => true
  | _ => false

/-- JS template-literal conversion of a value (String(v)); formatResult
reaches this only for non-object values. -/
def jsPrimToString : JSVal → String
  | .undef => "undefined"
  | .null => "null"
  | .bool b => if b then "true" else "false"
  | .num n => toString n
  | .str s => s
  | .arr _ => ""
  | .obj _ => "[object Object]"

/-- Escape a character for a JSON string literal. -/
def jsonEscapeChar (c : Char) : String :=
  if c = '"' then "\\\""
  else if c = '\\' then "\\\\"
  else if c = '\n' then "\\n"
  else if c = '\t' then "\\t"
  else if c = '\r' then "\\r"
  else String.singleton c

/-- JSON string literal for `s`. -/
def jsonQuote (s : String) : String :=
  "\"" ++ String.join (s.data.map jsonEscapeChar) ++ "\""

/-- `JSON.stringify(v, null, 2)` at indentation depth `ind`; `none`
models the undefined result (undefined values are omitted from objects
and become null inside arrays). -/
def jsonStringify (ind : Nat) : JSVal → Option String
  | .undef => none
  | .null => some "null"
  | .bool b => some (if b then "true" else "false")
  | .num n => some (toString n)
  | .str s => some (jsonQuote s)
  | .arr elems =>
    let items := elems.attach.map (fun x => (jsonStringify (ind + 2) x.1).getD "null")
    if items.isEmpty then some "[]"
    else
      let pad := String.mk (List.replicate (ind + 2) ' ')
      some ("[\n" ++ String.intercalate ",\n" (items.map (fun s => pad ++ s))
        ++ "\n" ++ String.mk (List.replicate ind ' ') ++ "]")
  | .obj fields =>
    let items := fields.attach.filterMap (fun x =>
      (jsonStringify (ind + 2) x.1.2).map (fun s => jsonQuote x.1.1 ++ ": " ++ s))
    if items.isEmpty then some "\x7b\x7d"
    else
      let pad := String.mk (List.replicate (ind + 2) ' ')
      some ("\x7b\n" ++ String.intercalate ",\n" (items.map (fun s => pad ++ s))
        ++ "\n" ++ String.mk (List.replicate ind ' ') ++ "\x7d")
termination_by v => sizeOf v
decreasing_by
  · have := List.sizeOf_lt_of_mem x.2
    simp only [JSVal.arr.sizeOf_spec]
    omega
  · have := List.sizeOf_lt_of_mem x.2
    have h2 : sizeOf x.1.2 < sizeOf x.1 := by
      obtain ⟨k, v⟩ := x.1
      simp only [Prod.mk.sizeOf_spec]
      omega
    simp only [JSVal.obj.sizeOf_spec]
    omega

/-- Top-level `JSON.stringify(result, null, 2)` interpolation into the
reply template (undefined interpolates as the text "undefined"). -/
def jsonStringifyTop (v : JSVal) : String :=
  (jsonStringify 0 v).getD "undefined"

/-- The record returned by Sandbox.execute: `success, result?, error?,
output?`.  Fields the source leaves off a branch's object literal are
given the defaults that are observationally equal to undefined at every
use site (falsy output, undefined result, missing error). -/
structure SandboxResult where
  success : Bool
  result : JSVal := .undef
  error : String := ""
  output : String := ""

/-- `formatResult(result)` (command-parser.js, grapheme-splitter
variant; the character-based variant's formatResult is identical).
Mirrors the source's incremental string building. -/
def formatResult (r : SandboxResult) : String :=
  if r.success = false then
    "Error: " ++ r.error
  else
    let output1 := if r.output ≠ "" then "" ++ r.output else ""
    let output2 :=
      if r.result.isUndef then output1
      else
        let output' := if output1 ≠ "" then output1 ++ "\n" else output1
        if jsTypeOf r.result = "object" then
          output' ++ "=> " ++ jsonStringifyTop r.result
        else
          output' ++ "=> " ++ jsPrimToString r.result
    if output2 = "" then "✓ (no output)" else output2

/-- How a value is rendered in a reply: structured values through the
multi-line JSON rendering, scalars through their printable form. -/
def renderValue (v : JSVal) : String :=
  if jsTypeOf v = "object" then jsonStringifyTop v else jsPrimToString v

/-- Modelled from the spec for comparison with `formatResult` (spec 4.2):
error replies are "Error: " plus the message; otherwise the
newline-joined concatenation of the console buffer and, when the value
is not undefined, the arrow-prefixed rendering; the sentinel when both
are absent. -/
def formatResultSpec (r : SandboxResult) : String :=
  if r.success = false then
    "Error: " ++ r.error
  else
    let parts := (if r.output = "" then [] else [r.output])
      ++ (if r.result.isUndef then [] else ["=> " ++ renderValue r.result])
    if parts.isEmpty then "✓ (no output)" else String.intercalate "\n" parts

/-! ## Command parser: grapheme truncation (src: command-parser.js,
grapheme-splitter variant of truncateText)

The GraphemeSplitter library is abstracted: a text is represented by
the list of grapheme clusters that splitGraphemes returns, and the
appended "..." contributes three single-dot clusters (a full stop never
extends a preceding cluster). -/

/-- JS Array.prototype.slice(0, stop): a negative stop counts from the
end, clamped at zero. -/
def jsSliceTo {α : Type} (l : List α) (stop : Int) : List α :=
  if stop < 0 then l.take ((l.length : Int) + stop).toNat else l.take stop.toNat

/-- The three grapheme clusters of the appended "...". -/
def ellipsisGraphemes : List String := [".", ".", "."]

/-- `truncateText(text, limit)`, grapheme-splitter variant, acting on
the grapheme-cluster list of the text: unchanged when within the limit,
otherwise the slice to limit - 3 clusters with "..." appended. -/
def truncateText (graphemes : List String) (limit : Nat) : List String :=
  if graphemes.length ≤ limit then graphemes
  else jsSliceTo graphemes ((limit : Int) - 3) ++ ellipsisGraphemes

/-! ## Sandbox engine (src: sandbox.js, Sandbox.execute / Sandbox.dispose)

The QuickJS interpreter is abstracted by the outcome of evaluating the
code fragment: an exception reaching execute's catch, a plain value, or
a promise whose settlement is a function of elapsed wall-clock time.
The drain loop is mirrored exactly: each pass runs pending jobs, sleeps
50 ms (the only modelled passage of time), re-checks the promise state,
and gives up after 20 further iterations; the loop is entered only
while the elapsed time is below the timeout. -/

/-- State of a promise handle as reported by vm.getPromiseState. -/
inductive PromiseState where
  | pending
  | fulfilled (value : JSVal)
  | rejected (reason : JSVal)

/-- Whether a reported state is settled. -/
def PromiseState.isSettled : PromiseState → Bool
  | .pending => false
  | _ => true

/-- Settlement behaviour of the promise returned by the user code:
`settleAt` is the elapsed millisecond at which it settles (none =
never), and `settled` the state it then reports. -/
structure PromiseBehavior where
  settleAt : Option Nat
  settled : PromiseState

/-- The promise state observed `t` elapsed milliseconds into the run. -/
def promiseStateAt (pb : PromiseBehavior) (t : Nat) : PromiseState :=
  match pb.settleAt with
  | none => .pending
  | some s => if s ≤ t then pb.settled else .pending

/-- What evaluating the submitted code does, as seen by execute. -/
inductive EvalOutcome where
  | throws (message : String)
  | value (v : JSVal)
  | promise (pb : PromiseBehavior)

/-- The source's drain loop.  `fuel` is 20 minus the source's
`iterations` counter, so the initial call passes 20 and the loop body
runs at most 21 times, matching `iterations++; if (iterations > 20)
break`.  The retained `promiseState` variable is only overwritten when
a settled state is observed, so every other exit reports pending. -/
def drainLoop (pb : PromiseBehavior) (timeoutMs : Nat) :
    Nat → Nat → PromiseState
  | elapsed, fuel =>
    if elapsed < timeoutMs then
      let e := elapsed + 50
      let current := promiseStateAt pb e
      if current.isSettled then current
      else
        match fuel with
        | 0 => .pending
        | fuel' + 1 => drainLoop pb timeoutMs e fuel'
    else .pending

/-- The elapsed time of the drain loop's final poll, as fixed by the
source's loop structure: polls happen every 50 ms while the elapsed
time is below the budget, and the iteration counter caps the loop at
21 body runs, so the last poll is at 50 · min(⌈timeout / 50⌉, 21) ms
(0 when the budget is 0 and the loop is never entered).  A promise is
unsettled at the end of the loop exactly when it is still pending at
this time. -/
def lastPollTime (timeoutMs : Nat) : Nat :=
  50 * min ((timeoutMs + 49) / 50) 21

/-- The JS object `{ type: 'pending' }` produced when the loop ends
without settlement. -/
def pendingTag : JSVal := .obj [("type", .str "pending")]

/-- The JS object `{ type: 'rejected', error }` produced by the
rejected branch, carrying the dumped rejection reason. -/
def rejectedTag (reason : JSVal) : JSVal :=
  .obj [("type", .str "rejected"), ("error", reason)]

/-- `Sandbox.execute` after init/startEval/buffer-clear, given the
console output the run produced and the outcome of evaluating the
code.  The second component records whether the value handle was
disposed on the taken exit path (the `actualHandle.dispose()` call;
the catch branch performs no disposal). -/
def Sandbox.execute (outcome : EvalOutcome) (timeoutMs : Nat)
    (consoleOut : String) : SandboxResult × Bool :=
  match outcome with
  | .throws msg => ({ success := false, error := msg }, false)
  | .value v => ({ success := true, result := v, output := consoleOut }, true)
  | .promise pb =>
    let initial := promiseStateAt pb 0
    let final :=
      match initial with
      | .pending => drainLoop pb timeoutMs 0 20
      | s => s
    let finalResult : JSVal :=
      match final with
      | .rejected reason => rejectedTag reason
      | .fulfilled v => v
      | .pending => pendingTag
    ({ success := true, result := finalResult, output := consoleOut }, true)

/-- Liveness of the interpreter-side resources held by a Sandbox
instance (vm and runtime). -/
structure SandboxHandles where
  vmAlive : Bool
  runtimeAlive : Bool

/-- `Sandbox.dispose()` : disposes and nulls both handles; idempotent
because the second call finds them already nulled. -/
def Sandbox.dispose (_s : SandboxHandles) : SandboxHandles :=
  ⟨false, false⟩

/-! ## Command parser: code extraction (src: command-parser.js,
CommandParser.extractCode)

The handle regex `@handle\s*` with flags g and i is embedded as a
left-to-right single-pass scan: at each position an at sign followed by
a case-insensitive occurrence of the handle (treated literally, which
is exact for handles without regex metacharacters) and any trailing
whitespace is removed, and scanning resumes after the removed span
without re-examining earlier output, matching String.replace with a
global regex.  Case folding is per-character lowercasing. -/

/-- The whitespace class matched by the JS `\s` escape (the common
members; all that the source's inputs exercise). -/
def jsWs (c : Char) : Bool :=
  c = ' ' ∨ c = '\t' ∨ c = '\n' ∨ c = '\r' ∨ c = '\x0b' ∨ c = '\x0c'
    ∨ c = ' ' ∨ c = '﻿' ∨ c = ' ' ∨ c = ' ' ∨ c = '　'

/-- Case-insensitive test that `l` begins with the pattern `pat`. -/
def startsWithCI : List Char → List Char → Bool
  | [], _ => true
  | _ :: _, [] => false
  | p :: ps, c :: cs => p.toLower = c.toLower ∧ startsWithCI ps cs

/-- One scan of the replace loop; `fuel` bounds the number of scan
steps (each step consumes at least one character, so the text length
suffices). -/
def stripHandleGo (handle : List Char) : Nat → List Char → List Char
  | _, [] => []
  | 0, l => l
  | fuel + 1, c :: rest =>
    if c = '@' ∧ startsWithCI handle rest then
      stripHandleGo handle fuel ((rest.drop handle.length).dropWhile jsWs)
    else
      c :: stripHandleGo handle fuel rest

/-- `text.replace(new RegExp("@" + handle + "\\s*", "gi"), "")`. -/
def stripHandle (handle text : String) : String :=
  ⟨stripHandleGo handle.data text.data.length text.data⟩

/-- JS String.prototype.trim on both ends, over the whitespace class. -/
def jsTrimChars (l : List Char) : List Char :=
  ((l.dropWhile jsWs).reverse.dropWhile jsWs).reverse

/-- JS String.prototype.trim. -/
def jsTrim (s : String) : String := ⟨jsTrimChars s.data⟩

/-- UTF-8 encoding of one code point (TextEncoder). -/
def utf8EncodeChar (c : Char) : List Nat :=
  let n := c.toNat
  if n < 0x80 then [n]
  else if n < 0x800 then [0xC0 + n / 64, 0x80 + n % 64]
  else if n < 0x10000 then [0xE0 + n / 4096, 0x80 + (n / 64) % 64, 0x80 + n % 64]
  else [0xF0 + n / 262144, 0x80 + (n / 4096) % 64, 0x80 + (n / 64) % 64, 0x80 + n % 64]

/-- TextEncoder.encode: the UTF-8 bytes of the text. -/
def utf8Encode (s : String) : List Nat :=
  (s.data.map utf8EncodeChar).flatten

/-- Whether a byte is a UTF-8 continuation byte. -/
def isCont (b : Nat) : Bool := 0x80 ≤ b ∧ b < 0xC0

/-- The replacement character emitted by TextDecoder for invalid input. -/
def replChar : Char := '�'

/-- TextDecoder.decode over UTF-8 bytes, substituting the replacement
character for invalid sequences.  `fuel` bounds the number of decoded
scalars (each consumes at least one byte). -/
def utf8DecodeGo : Nat → List Nat → List Char
  | _, [] => []
  | 0, _ => []
  | fuel + 1, b :: rest =>
    if b < 0x80 then Char.ofNat b :: utf8DecodeGo fuel rest
    else if b < 0xC2 then replChar :: utf8DecodeGo fuel rest
    else if b < 0xE0 then
      match rest with
      | b1 :: r1 =>
        if isCont b1 then Char.ofNat ((b - 0xC0) * 64 + (b1 - 0x80)) :: utf8DecodeGo fuel r1
        else replChar :: utf8DecodeGo fuel rest
      | [] => [replChar]
    else if b < 0xF0 then
      match rest with
      | b1 :: b2 :: r2 =>
        if isCont b1 ∧ isCont b2 then
          let cp := (b - 0xE0) * 4096 + (b1 - 0x80) * 64 + (b2 - 0x80)
          if 0x800 ≤ cp ∧ ¬(0xD800 ≤ cp ∧ cp ≤ 0xDFFF) then
            Char.ofNat cp :: utf8DecodeGo fuel r2
          else replChar :: utf8DecodeGo fuel r2
        else replChar :: utf8DecodeGo fuel rest
      | _ => [replChar]
    else if b < 0xF5 then
      match rest with
      | b1 :: b2 :: b3 :: r3 =>
        if isCont b1 ∧ isCont b2 ∧ isCont b3 then
          let cp := (b - 0xF0) * 262144 + (b1 - 0x80) * 4096 + (b2 - 0x80) * 64 + (b3 - 0x80)
          if 0x10000 ≤ cp ∧ cp ≤ 0x10FFFF then
            Char.ofNat cp :: utf8DecodeGo fuel r3
          else replChar :: utf8DecodeGo fuel r3
        else replChar :: utf8DecodeGo fuel rest
      | _ => [replChar]
    else replChar :: utf8DecodeGo fuel rest

/-- TextDecoder.decode. -/
def utf8Decode (bytes : List Nat) : String :=
  ⟨utf8DecodeGo bytes.length bytes⟩

/-- A facet's byteStart/byteEnd index record. -/
structure FacetIndex where
  byteStart : Nat
  byteEnd : Nat
deriving DecidableEq, Repr

/-- One feature of a richtext facet ($type plus the mention did when
present). -/
structure FacetFeature where
  ftype : String
  did : Option String := none
deriving Repr

/-- A richtext facet: optional feature list and optional index. -/
structure Facet where
  features : Option (List FacetFeature) := none
  index : Option FacetIndex := none
deriving Repr

/-- An AT Protocol post record as extractCode consumes it. -/
structure Post where
  text : Option String := none
  facets : Option (List Facet) := none

/-- CommandParser configuration. -/
structure CommandParser where
  botHandle : Option String := none
  botDid : Option String := none

/-- The pair extractCode returns. -/
structure ExtractResult where
  code : String
  hasCode : Bool
deriving DecidableEq, Repr

/-- Collect the index records of mention facets matching the bot did,
in facet order, one per matching feature. -/
def collectMentionFacets (botDid : String) (facets : List Facet) : List FacetIndex :=
  facets.foldl (fun acc f =>
    match f.features with
    | none => acc
    | some feats =>
      feats.foldl (fun acc2 feat =>
        if feat.ftype = "app.bsky.richtext.facet#mention" ∧ feat.did = some botDid then
          match f.index with
          | some idx => acc2 ++ [idx]
          | none => acc2
        else acc2) acc) []

/-- Remove the collected mention facets from the text by byte position,
in descending byteStart order so earlier offsets stay valid, then
decode the remaining bytes. -/
def removeMentionFacets (botDid : String) (facets : List Facet) (text : String) : String :=
  let mentionFacets := collectMentionFacets botDid facets
  let sorted := mentionFacets.mergeSort (fun a b => b.byteStart ≤ a.byteStart)
  let bytes := sorted.foldl (fun bs idx => bs.take idx.byteStart ++ bs.drop idx.byteEnd)
    (utf8Encode text)
  utf8Decode bytes

/-- `extractCode(post)` : strip handle mentions, strip matching mention
facets by byte offset when the post has a facets array and the parser a
did, trim, and report hasCode as nonemptiness.  An absent or empty text
short-circuits (both are falsy). -/
def CommandParser.extractCode (p : CommandParser) (post : Post) : ExtractResult :=
  match post.text with
  | none => ⟨"", false⟩
  | some t0 =>
    if t0 = "" then ⟨"", false⟩
    else
      let t1 :=
        match p.botHandle with
        | none => t0
        | some h => if h = "" then t0 else stripHandle h t0
      let t2 :=
        match post.facets, p.botDid with
        | some fs, some d => if d = "" then t1 else removeMentionFacets d fs t1
        | _, _ => t1
      let t3 := jsTrim t2
      ⟨t3, t3 ≠ ""⟩

/-! ## Bot worker admission control (src: bot-worker.js)

The per-user cooldown map is embedded as a function from user did to
optional last-completion timestamp.  processMention is modelled per
job: the admission-time clock reading and the completion-time clock
reading are the two time arguments, and executeAndReply is abstracted
to whether it threw; on both the success path and the catch path a
reply is posted (or attempted), and the finally block restores the
in-flight counter and stamps the cooldown map. -/

/-- BotWorker state: cooldown map, configured cooldown and cap,
in-flight counter and the stats record. -/
structure BotWorker where
  userLimits : String → Option Int
  userCooldown : Int
  globalQueueSize : Nat
  maxQueueSize : Nat
  processed : Nat
  successful : Nat
  failed : Nat
  rateLimited : Nat

/-- `checkUserRateLimit(userDid)` at time `now`: first-time users pass;
otherwise the elapsed time since the recorded stamp must reach the
cooldown. -/
def checkUserRateLimit (w : BotWorker) (userDid : String) (now : Int) : Bool :=
  match w.userLimits userDid with
  | none => true
  | some lastExec => w.userCooldown ≤ now - lastExec

/-- `updateUserRateLimit(userDid)` at time `now`: stamp the user, then
prune entries older than one hour. -/
def updateUserRateLimit (w : BotWorker) (userDid : String) (now : Int) : BotWorker :=
  let afterSet := fun did => if did = userDid then some now else w.userLimits did
  let cutoff := now - 3600000
  { w with userLimits := fun did =>
      match afterSet did with
      | some ts => if ts < cutoff then none else some ts
      | none => none }

/-- `processMention(mention)` for one job: `tStart` is the admission
clock reading, `tFinish` the completion clock reading, `execOk` whether
executeAndReply returned without throwing.  The returned Bool records
whether a reply was produced (posted or attempted); both rejection
paths return without replying and without touching the cooldown map. -/
def processMention (w : BotWorker) (author : String) (tStart tFinish : Int)
    (execOk : Bool) : BotWorker × Bool :=
  if w.maxQueueSize ≤ w.globalQueueSize then
    ({ w with rateLimited := w.rateLimited + 1 }, false)
  else if checkUserRateLimit w author tStart = false then
    ({ w with rateLimited := w.rateLimited + 1 }, false)
  else
    let w1 := { w with globalQueueSize := w.globalQueueSize + 1 }
    let w2 :=
      if execOk then
        { w1 with processed := w1.processed + 1, successful := w1.successful + 1 }
      else
        { w1 with processed := w1.processed + 1, failed := w1.failed + 1 }
    let w3 := { w2 with globalQueueSize := w2.globalQueueSize - 1 }
    (updateUserRateLimit w3 author tFinish, true)

/-! ## Theorems -/

/-! ### Ledger lemmas -/

theorem setChannel_requests (st : HttpLimiter) (ch : String) (l : List HttpEntry) (c : String) :
    (st.setChannel ch l).requests c = if c = ch then l else st.requests c := rfl

theorem setChannel_requests_self (st : HttpLimiter) (ch : String) (l : List HttpEntry) :
    (st.setChannel ch l).requests ch = l := by
  simp [HttpLimiter.setChannel]

theorem setChannel_requests_other (st : HttpLimiter) (ch : String) (l : List HttpEntry)
    (c : String) (hc : c ≠ ch) : (st.setChannel ch l).requests c = st.requests c := by
  simp [HttpLimiter.setChannel, hc]

theorem checkLimits_ok_eq {st st' : HttpLimiter} {now : Int} {ch : String}
    (h : st.checkLimits now ch = .ok st') :
    st' = st.setChannel ch ((st.requests ch).filter
        (fun r => now - (st.requestInterval : Int) * 1000 ≤ r.timestamp))
      ∧ ((st.requests ch).filter
        (fun r => now - (st.requestInterval : Int) * 1000 ≤ r.timestamp)).length
          < st.requestLimit := by
  simp only [HttpLimiter.checkLimits] at h
  split at h
  · exact absurd h (by simp)
  · split at h
    · exact absurd h (by simp)
    · rename_i h2
      refine ⟨(Except.ok.inj h).symm, ?_⟩
      omega

theorem checkLimits_error_eq {st : HttpLimiter} {now : Int} {ch : String} {e : String}
    (h : st.checkLimits now ch = .error e) :
    e = st.perEvalMsg ∨ e = st.windowMsg := by
  simp only [HttpLimiter.checkLimits] at h
  split at h
  · exact Or.inl (Except.error.inj h).symm
  · split at h
    · exact Or.inr (Except.error.inj h).symm
    · exact absurd h (by simp)

theorem step_requestLimit (st : HttpLimiter) (op : LedgerOp) :
    (LedgerOp.step st op).requestLimit = st.requestLimit := by
  cases op with
  | newEval => rfl
  | attempt ch tc tr =>
    simp only [LedgerOp.step]
    cases hck : st.checkLimits tc ch with
    | error e => rfl
    | ok st1 =>
      obtain ⟨h1, _⟩ := checkLimits_ok_eq hck
      subst h1
      rfl

theorem step_len_le (st : HttpLimiter) (op : LedgerOp)
    (h : ∀ c, (st.requests c).length ≤ st.requestLimit) :
    ∀ c, ((LedgerOp.step st op).requests c).length ≤ st.requestLimit := by
  intro c
  cases op with
  | newEval => exact h c
  | attempt ch tc tr =>
    simp only [LedgerOp.step]
    cases hck : st.checkLimits tc ch with
    | error e => exact h c
    | ok st1 =>
      obtain ⟨h1, h2⟩ := checkLimits_ok_eq hck
      subst h1
      by_cases hc : c = ch
      · subst hc
        simp only [HttpLimiter.recordRequest, setChannel_requests_self,
          List.length_append, List.length_cons, List.length_nil]
        omega
      · simp only [HttpLimiter.recordRequest, setChannel_requests_other _ _ _ _ hc]
        exact h c

theorem runLedger_len_le (ops : List LedgerOp) :
    ∀ st : HttpLimiter, (∀ c, (st.requests c).length ≤ st.requestLimit) →
      (runLedger st ops).requestLimit = st.requestLimit
        ∧ ∀ c, ((runLedger st ops).requests c).length ≤ st.requestLimit := by
  induction ops with
  | nil => exact fun st h => ⟨rfl, h⟩
  | cons op ops ih =>
    intro st h
    have hstep := step_len_le st op h
    have hlim := step_requestLimit st op
    have := ih (LedgerOp.step st op) (by rw [hlim]; exact hstep)
    rw [hlim] at this
    exact ⟨this.1, this.2⟩

theorem windowCount_le_length (l : List HttpEntry) (a w : Int) :
    windowCount l a w ≤ l.length :=
  List.length_filter_le _ l

/-- C4: after any sequence of checkLimits/recordRequest pairs (the
record only on a non-throwing check) interleaved with startEval calls,
every principal's stored ledger history holds at most window_limit
entries with timestamps inside any interval of length window_secs. -/
theorem ledger_window_invariant (o : HttpOptions) (ops : List LedgerOp)
    (ch : String) (a : Int) :
    windowCount ((runLedger (mkHttpLimiter o) ops).requests ch) a
        ((mkHttpLimiter o).requestInterval * 1000)
      ≤ (mkHttpLimiter o).requestLimit := by
  have h0 : ∀ c, ((mkHttpLimiter o).requests c).length ≤ (mkHttpLimiter o).requestLimit := by
    intro c
    simp [mkHttpLimiter]
  have := (runLedger_len_le ops (mkHttpLimiter o) h0).2 ch
  exact le_trans (windowCount_le_length _ _ _) this

/-- C10: checkLimits is atomic on error.  When it throws, the attempt
step leaves the limiter exactly as it was (the pruning computed during
the check is not persisted); when it succeeds, the throwing channel's
stored history becomes the pruned window and every other channel is
untouched. -/
theorem checkLimits_atomic (st : HttpLimiter) (now tr : Int) (ch : String) :
    (∀ e, st.checkLimits now ch = .error e →
        LedgerOp.step st (.attempt ch now tr) = st)
    ∧ (∀ st', st.checkLimits now ch = .ok st' →
        st'.requests ch = (st.requests ch).filter
            (fun r => now - (st.requestInterval : Int) * 1000 ≤ r.timestamp)
          ∧ ∀ c, c ≠ ch → st'.requests c = st.requests c) := by
  constructor
  · intro e he
    simp only [LedgerOp.step]
    rw [he]
  · intro st' h
    obtain ⟨h1, _⟩ := checkLimits_ok_eq h
    subst h1
    refine ⟨setChannel_requests_self _ _ _, ?_⟩
    intro c hc
    exact setChannel_requests_other _ _ _ _ hc

/-- Witness for C10 at a concrete limiter whose per-eval budget is
already exhausted: the check throws and the attempt step is the
identity on the state. -/
theorem checkLimits_atomic_witness :
    LedgerOp.step
        { requestsPerEval := 5, requestInterval := 60, requestLimit := 25,
          postLimit := 150000, transferLimit := 150000, timeLimit := 5000,
          requests := fun _ =>
            [⟨0, 1⟩, ⟨1, 1⟩, ⟨2, 1⟩, ⟨3, 1⟩, ⟨4, 1⟩],
          currentEvalId := 1, evalRequestCount := 0 }
        (.attempt "alice" 10 10)
      = { requestsPerEval := 5, requestInterval := 60, requestLimit := 25,
          postLimit := 150000, transferLimit := 150000, timeLimit := 5000,
          requests := fun _ =>
            [⟨0, 1⟩, ⟨1, 1⟩, ⟨2, 1⟩, ⟨3, 1⟩, ⟨4, 1⟩],
          currentEvalId := 1, evalRequestCount := 0 } :=
  (checkLimits_atomic _ 10 10 "alice").1 _ rfl

/-! ### C7: POST body validation order and boundary -/

/-- C7 is false as stated: on `c7Limiter` with the four-byte body
"xxxx" (limit 3), postLedger reports the budget error, not the body
error which the validate-first order mandated by the claim would
report. -/
theorem post_validate_order_counterexample :
    postLedger c7Limiter 10 10 "alice" "xxxx"
        = .error "Too many HTTP requests in this eval (max 1 requests)"
      ∧ postLedgerSpecOrder c7Limiter 10 10 "alice" "xxxx"
        = .error "POST body exceeds 3 bytes"
      ∧ postLedger c7Limiter 10 10 "alice" "xxxx"
        ≠ postLedgerSpecOrder c7Limiter 10 10 "alice" "xxxx" := by
  refine ⟨rfl, rfl, ?_⟩
  have h1 : postLedger c7Limiter 10 10 "alice" "xxxx"
      = .error "Too many HTTP requests in this eval (max 1 requests)" := rfl
  have h2 : postLedgerSpecOrder c7Limiter 10 10 "alice" "xxxx"
      = .error "POST body exceeds 3 bytes" := rfl
  rw [h1, h2]
  simp

/-- C7 amended: `post` runs checkLimits first, then validatePostBody,
then recordRequest; validatePostBody succeeds exactly when the UTF-8
byte length of the body is at most post_body_limit_bytes (so the exact
limit passes and one byte more fails), and a validation failure
records no ledger entry. -/
theorem post_checks_then_validates (st : HttpLimiter) (tc tr : Int)
    (ch body : String) :
    (postLedger st tc tr ch body =
      match st.checkLimits tc ch with
      | .error e => .error e
      | .ok st1 =>
        if st1.postLimit < body.utf8ByteSize then
          .error ("POST body exceeds " ++ toString st1.postLimit ++ " bytes")
        else .ok (st1.recordRequest tr ch))
    ∧ (st.validatePostBody body = .ok () ↔ body.utf8ByteSize ≤ st.postLimit) := by
  constructor
  · simp only [postLedger, bind, Except.bind]
    cases hck : st.checkLimits tc ch with
    | error e => rfl
    | ok st1 =>
      by_cases hv : st1.postLimit < body.utf8ByteSize
      · simp [HttpLimiter.validatePostBody, hv, pure, Except.pure]
      · simp [HttpLimiter.validatePostBody, hv, pure, Except.pure]
  · simp only [HttpLimiter.validatePostBody]
    split
    · rename_i hgt
      constructor
      · intro h
        exact absurd h (by simp)
      · intro h
        omega
    · rename_i hle
      constructor
      · intro _
        omega
      · intro _
        rfl

/-! ### C3: per-eval fetch budget boundary -/

theorem setChannel_setChannel (st : HttpLimiter) (ch : String)
    (l1 l2 : List HttpEntry) :
    (st.setChannel ch l1).setChannel ch l2 = st.setChannel ch l2 := by
  simp only [HttpLimiter.setChannel]
  congr 1
  funext c
  by_cases hc : c = ch <;> simp [hc]

theorem recordRequest_setChannel (st : HttpLimiter) (ch : String)
    (l : List HttpEntry) (t : Int) :
    (st.setChannel ch l).recordRequest t ch
      = st.setChannel ch (l ++ [⟨t, st.currentEvalId⟩]) := by
  simp only [HttpLimiter.recordRequest, setChannel_requests_self,
    setChannel_setChannel]
  rfl

theorem fetchLedger_ok (st : HttpLimiter) (t : Int) (ch : String)
    (hw : ∀ e ∈ st.requests ch,
      t - (st.requestInterval : Int) * 1000 ≤ e.timestamp)
    (he : ∀ e ∈ st.requests ch, e.evalId = st.currentEvalId)
    (h1 : (st.requests ch).length < st.requestsPerEval)
    (h2 : (st.requests ch).length < st.requestLimit) :
    fetchLedger st t t ch
      = .ok (st.setChannel ch (st.requests ch ++ [⟨t, st.currentEvalId⟩])) := by
  have hfil : (st.requests ch).filter
      (fun r => t - (st.requestInterval : Int) * 1000 ≤ r.timestamp)
      = st.requests ch := by
    rw [List.filter_eq_self]
    intro a ha
    simpa using hw a ha
  have hfil2 : (st.requests ch).filter (fun r => r.evalId = st.currentEvalId)
      = st.requests ch := by
    rw [List.filter_eq_self]
    intro a ha
    simpa using he a ha
  simp only [fetchLedger, bind, Except.bind, HttpLimiter.checkLimits,
    hfil, hfil2]
  rw [if_neg (by omega), if_neg (by omega)]
  simp only [pure, Except.pure]
  rw [recordRequest_setChannel]

theorem fetchLedger_err_eval (st : HttpLimiter) (t : Int) (ch : String)
    (hw : ∀ e ∈ st.requests ch,
      t - (st.requestInterval : Int) * 1000 ≤ e.timestamp)
    (he : ∀ e ∈ st.requests ch, e.evalId = st.currentEvalId)
    (hge : st.requestsPerEval ≤ (st.requests ch).length) :
    fetchLedger st t t ch = .error st.perEvalMsg := by
  have hfil : (st.requests ch).filter
      (fun r => t - (st.requestInterval : Int) * 1000 ≤ r.timestamp)
      = st.requests ch := by
    rw [List.filter_eq_self]
    intro a ha
    simpa using hw a ha
  have hfil2 : (st.requests ch).filter (fun r => r.evalId = st.currentEvalId)
      = st.requests ch := by
    rw [List.filter_eq_self]
    intro a ha
    simpa using he a ha
  simp only [fetchLedger, bind, Except.bind, HttpLimiter.checkLimits,
    hfil, hfil2]
  rw [if_pos (by omega)]

theorem perEvalMsg_of_five (st : HttpLimiter) (h : st.requestsPerEval = 5) :
    st.perEvalMsg = "Too many HTTP requests in this eval (max 5 requests)" := by
  simp only [HttpLimiter.perEvalMsg, h]
  rfl

set_option maxRecDepth 8000

/-- C3: within one eval started on a fresh default ledger, five fetch
calls all pass the check and each record one request, and the sixth
fails with exactly the per-eval budget message. -/
theorem fetch_eval_budget (ch : String) (t1 t2 t3 t4 t5 t6 : Int)
    (h12 : t1 ≤ t2) (h23 : t2 ≤ t3) (h34 : t3 ≤ t4) (h45 : t4 ≤ t5)
    (h56 : t5 ≤ t6) (hwin : t6 ≤ t1 + 60000) :
    (∃ st5, fetchSeq ((mkHttpLimiter {}).startEval) [t1, t2, t3, t4, t5] ch
        = .ok st5 ∧ (st5.requests ch).length = 5)
    ∧ fetchSeq ((mkHttpLimiter {}).startEval) [t1, t2, t3, t4, t5, t6] ch
        = .error "Too many HTTP requests in this eval (max 5 requests)" := by
  set st0 := (mkHttpLimiter {}).startEval with hst0
  have step : ∀ (pre : List HttpEntry) (t : Int),
      (∀ e ∈ pre, t - 60000 ≤ e.timestamp) → (∀ e ∈ pre, e.evalId = 1) →
      pre.length < 5 →
      fetchLedger (st0.setChannel ch pre) t t ch
        = .ok (st0.setChannel ch (pre ++ [⟨t, 1⟩])) := by
    intro pre t hwp hep hlen
    have hri : (st0.setChannel ch pre).requestInterval = 60 := rfl
    have h60 : ((st0.setChannel ch pre).requestInterval : Int) * 1000 = 60000 := by
      rw [hri]; norm_num
    have key := fetchLedger_ok (st0.setChannel ch pre) t ch
      (by intro e hees; rw [setChannel_requests_self] at hees
          rw [h60]; exact hwp e hees)
      (by intro e hees; rw [setChannel_requests_self] at hees
          rw [show (st0.setChannel ch pre).currentEvalId = 1 from rfl]
          exact hep e hees)
      (by rw [setChannel_requests_self,
            show (st0.setChannel ch pre).requestsPerEval = 5 from rfl]
          exact hlen)
      (by rw [setChannel_requests_self,
            show (st0.setChannel ch pre).requestLimit = 25 from rfl]
          omega)
    rw [setChannel_requests_self, setChannel_setChannel] at key
    exact key
  have stepErr : ∀ (pre : List HttpEntry) (t : Int),
      (∀ e ∈ pre, t - 60000 ≤ e.timestamp) → (∀ e ∈ pre, e.evalId = 1) →
      5 ≤ pre.length →
      fetchLedger (st0.setChannel ch pre) t t ch
        = .error "Too many HTTP requests in this eval (max 5 requests)" := by
    intro pre t hwp hep hlen
    have hri : (st0.setChannel ch pre).requestInterval = 60 := rfl
    have h60 : ((st0.setChannel ch pre).requestInterval : Int) * 1000 = 60000 := by
      rw [hri]; norm_num
    have key := fetchLedger_err_eval (st0.setChannel ch pre) t ch
      (by intro e hees; rw [setChannel_requests_self] at hees
          rw [h60]; exact hwp e hees)
      (by intro e hees; rw [setChannel_requests_self] at hees
          rw [show (st0.setChannel ch pre).currentEvalId = 1 from rfl]
          exact hep e hees)
      (by rw [setChannel_requests_self,
            show (st0.setChannel ch pre).requestsPerEval = 5 from rfl]
          exact hlen)
    rw [perEvalMsg_of_five _ rfl] at key
    exact key
  have f1 : fetchLedger st0 t1 t1 ch = .ok (st0.setChannel ch [⟨t1, 1⟩]) := by
    have h0 : st0.requests ch = [] := rfl
    have hper : st0.requestsPerEval = 5 := rfl
    have hlim : st0.requestLimit = 25 := rfl
    have key := fetchLedger_ok st0 t1 ch
      (by rw [h0]; intro e hees; cases hees)
      (by rw [h0]; intro e hees; cases hees)
      (by rw [h0, hper]; decide)
      (by rw [h0, hlim]; decide)
    rw [h0] at key
    exact key
  have f2 := step [⟨t1, 1⟩] t2
    (by intro e hees; simp at hees; subst hees; simp; omega)
    (by intro e hees; simp at hees; subst hees; rfl) (by simp)
  have f3 := step [⟨t1, 1⟩, ⟨t2, 1⟩] t3
    (by intro e hees; simp at hees
        rcases hees with rfl | rfl <;> simp <;> omega)
    (by intro e hees; simp at hees; rcases hees with rfl | rfl <;> rfl) (by simp)
  have f4 := step [⟨t1, 1⟩, ⟨t2, 1⟩, ⟨t3, 1⟩] t4
    (by intro e hees; simp at hees
        rcases hees with rfl | rfl | rfl <;> simp <;> omega)
    (by intro e hees; simp at hees; rcases hees with rfl | rfl | rfl <;> rfl)
    (by simp)
  have f5 := step [⟨t1, 1⟩, ⟨t2, 1⟩, ⟨t3, 1⟩, ⟨t4, 1⟩] t5
    (by intro e hees; simp at hees
        rcases hees with rfl | rfl | rfl | rfl <;> simp <;> omega)
    (by intro e hees; simp at hees
        rcases hees with rfl | rfl | rfl | rfl <;> rfl)
    (by simp)
  have f6 := stepErr [⟨t1, 1⟩, ⟨t2, 1⟩, ⟨t3, 1⟩, ⟨t4, 1⟩, ⟨t5, 1⟩] t6
    (by intro e hees; simp at hees
        rcases hees with rfl | rfl | rfl | rfl | rfl <;> simp <;> omega)
    (by intro e hees; simp at hees
        rcases hees with rfl | rfl | rfl | rfl | rfl <;> rfl)
    (by simp)
  simp only [List.cons_append, List.nil_append] at f2 f3 f4 f5 f6
  constructor
  · refine ⟨st0.setChannel ch [⟨t1, 1⟩, ⟨t2, 1⟩, ⟨t3, 1⟩, ⟨t4, 1⟩, ⟨t5, 1⟩], ?_, ?_⟩
    · simp only [fetchSeq, List.foldlM, bind]
      rw [f1]; simp only [Except.bind]
      rw [f2]; simp only [Except.bind]
      rw [f3]; simp only [Except.bind]
      rw [f4]; simp only [Except.bind]
      rw [f5]; simp only [Except.bind]
      rfl
    · rw [setChannel_requests_self]
      rfl
  · simp only [fetchSeq, List.foldlM, bind]
    rw [f1]; simp only [Except.bind]
    rw [f2]; simp only [Except.bind]
    rw [f3]; simp only [Except.bind]
    rw [f4]; simp only [Except.bind]
    rw [f5]; simp only [Except.bind]
    rw [f6]

set_option maxRecDepth 512

/-- Witness for C3 at concrete call times 0, 10, 20, 30, 40, 50 on the
default ledger configuration. -/
theorem fetch_eval_budget_witness :
    (∃ st5, fetchSeq ((mkHttpLimiter {}).startEval) [0, 10, 20, 30, 40] "alice"
        = .ok st5 ∧ (st5.requests "alice").length = 5)
    ∧ fetchSeq ((mkHttpLimiter {}).startEval) [0, 10, 20, 30, 40, 50] "alice"
        = .error "Too many HTTP requests in this eval (max 5 requests)" :=
  fetch_eval_budget "alice" 0 10 20 30 40 50 (by decide) (by decide)
    (by decide) (by decide) (by decide) (by decide)

/-! ### C5: grapheme truncation -/

/-- C5 is false as stated at limit 2: a three-cluster text truncates to
five clusters (JS slice with the negative index 2 - 3 keeps all but the
last cluster before appending the three-dot ellipsis), so the result's
grapheme count exceeds the limit. -/
theorem truncate_limit_counterexample :
    (truncateText ["a", "b", "c"] 2).length = 5
      ∧ ¬ (truncateText ["a", "b", "c"] 2).length ≤ 2 := by
  decide

/-- C5 amended: truncateText returns the text unchanged whenever its
grapheme count is at most the limit, and for limits of at least 3 an
over-limit text becomes its first limit - 3 clusters followed by "...",
so the result has exactly limit clusters; for limits below 3 the bound
fails (see the counterexample). -/
theorem truncate_graphemes_amended (gs : List String) (limit : Nat) :
    (gs.length ≤ limit → truncateText gs limit = gs)
    ∧ (3 ≤ limit → limit < gs.length →
        truncateText gs limit = gs.take (limit - 3) ++ ellipsisGraphemes
          ∧ (truncateText gs limit).length = limit) := by
  constructor
  · intro h
    simp [truncateText, h]
  · intro h3 hover
    have hint : ¬ gs.length ≤ limit := by omega
    have hnneg : ¬ ((limit : Int) - 3 < 0) := by omega
    have htn : ((limit : Int) - 3).toNat = limit - 3 := by omega
    have heq : truncateText gs limit = gs.take (limit - 3) ++ ellipsisGraphemes := by
      simp only [truncateText, if_neg hint, jsSliceTo, if_neg hnneg, htn]
    refine ⟨heq, ?_⟩
    rw [heq]
    simp only [List.length_append, List.length_take, ellipsisGraphemes,
      List.length_cons, List.length_nil]
    omega

/-- Witness for C5 at the spec's boundary example: an input of 350
ZWJ-joined emoji clusters truncates at limit 300 to exactly 300
clusters, the first 297 followed by the three-dot ellipsis. -/
theorem truncate_graphemes_witness :
    (truncateText (List.replicate 350 "🧑‍🤝‍🧑") 300).length = 300
    ∧ truncateText (List.replicate 350 "🧑‍🤝‍🧑") 300
        = List.replicate 297 "🧑‍🤝‍🧑" ++ ellipsisGraphemes := by
  have h := (truncate_graphemes_amended (List.replicate 350 "🧑‍🤝‍🧑") 300).2
    (by norm_num) (by rw [List.length_replicate]; norm_num)
  refine ⟨h.2, ?_⟩
  rw [h.1, List.take_replicate, min_eq_left (by norm_num)]

/-! ### C9: formatResult refinement -/

theorem length_zero_eq_empty {s : String} (h : s.length = 0) : s = "" := by
  cases s with
  | mk data =>
    cases data with
    | nil => rfl
    | cons c cs => simp [String.length] at h

theorem append_ne_empty_left (a b : String) (ha : a ≠ "") : a ++ b ≠ "" := by
  intro h
  have hl := congrArg String.length h
  rw [String.length_append] at hl
  have : a.length = 0 := by
    simpa using Nat.eq_zero_of_add_eq_zero_right (by simpa using hl)
  exact ha (length_zero_eq_empty this)

theorem string_empty_append (s : String) : "" ++ s = s := rfl

/-- C9: formatResult agrees with the spec's description on every
execution result: error results render as "Error: " plus the message,
successful results as the newline-joined console buffer followed by the
arrow-prefixed rendering of a non-undefined value (structured values
through the multi-line JSON rendering, scalars through their printable
form), with the sentinel when both pieces are absent. -/
theorem formatResult_spec_refines (r : SandboxResult) :
    formatResult r = formatResultSpec r := by
  unfold formatResult formatResultSpec
  by_cases hs : r.success = false
  · simp [hs]
  · by_cases ho : r.output = ""
    · by_cases hr : r.result.isUndef
      · simp [hs, ho, hr, String.intercalate, String.intercalate.go]
      · have h1 : "=> " ++ jsonStringifyTop r.result ≠ "" :=
          append_ne_empty_left _ _ (by decide)
        have h2 : "=> " ++ jsPrimToString r.result ≠ "" :=
          append_ne_empty_left _ _ (by decide)
        by_cases hobj : jsTypeOf r.result = "object" <;>
          simp [hs, ho, hr, hobj, renderValue, h1, h2, string_empty_append,
            String.intercalate, String.intercalate.go]
    · by_cases hr : r.result.isUndef
      · simp [hs, ho, hr, string_empty_append,
          String.intercalate, String.intercalate.go]
      · have h1 : r.output ++ ("\n=> " ++ jsonStringifyTop r.result) ≠ "" :=
          append_ne_empty_left _ _ ho
        have h2 : r.output ++ ("\n=> " ++ jsPrimToString r.result) ≠ "" :=
          append_ne_empty_left _ _ ho
        by_cases hobj : jsTypeOf r.result = "object" <;>
          · simp [hs, ho, hr, hobj, renderValue, h1, h2, string_empty_append,
              String.intercalate, String.intercalate.go, String.append_assoc]
            rfl

/-! ### C1: timeout path of Sandbox.execute -/

theorem drainLoop_never (pb : PromiseBehavior) (h : pb.settleAt = none)
    (timeoutMs : Nat) :
    ∀ (fuel elapsed : Nat), drainLoop pb timeoutMs elapsed fuel = .pending := by
  intro fuel
  induction fuel with
  | zero =>
    intro elapsed
    unfold drainLoop
    simp [promiseStateAt, h, PromiseState.isSettled]
  | succ f ih =>
    intro elapsed
    unfold drainLoop
    simp [promiseStateAt, h, PromiseState.isSettled, ih]

/-- C1 is false as stated: a never-settling promise under a 5000 ms
budget makes execute return success = true with the tagged object
`type: 'pending'` as the result, not a failure carrying a timeout
message. -/
theorem execute_timeout_counterexample :
    (Sandbox.execute (.promise ⟨none, .pending⟩) 5000 "").1.success = true
    ∧ (Sandbox.execute (.promise ⟨none, .pending⟩) 5000 "").1.result = pendingTag
    ∧ (Sandbox.execute (.promise ⟨none, .pending⟩) 5000 "").1.error = "" := by
  have hd := drainLoop_never ⟨none, .pending⟩ rfl 5000 20 0
  refine ⟨?_, ?_, ?_⟩ <;> simp [Sandbox.execute, promiseStateAt, hd]

theorem promiseStateAt_pending_mono (pb : PromiseBehavior) {t t' : Nat}
    (h : promiseStateAt pb t = .pending) (ht : t' ≤ t) :
    promiseStateAt pb t' = .pending := by
  cases hset : pb.settleAt with
  | none => simp only [promiseStateAt, hset]
  | some s =>
    simp only [promiseStateAt, hset] at h ⊢
    by_cases hst : s ≤ t'
    · rw [if_pos (le_trans hst ht)] at h
      rw [if_pos hst]
      exact h
    · rw [if_neg hst]

theorem drainLoop_pending_after (pb : PromiseBehavior) (timeoutMs : Nat)
    (hp : promiseStateAt pb (lastPollTime timeoutMs) = .pending) :
    ∀ (fuel elapsed : Nat), fuel ≤ 20 → elapsed = 50 * (20 - fuel) →
      drainLoop pb timeoutMs elapsed fuel = .pending := by
  have hl : lastPollTime timeoutMs = 50 * min ((timeoutMs + 49) / 50) 21 := rfl
  intro fuel
  induction fuel with
  | zero =>
    intro elapsed _ he
    unfold drainLoop
    by_cases hg : elapsed < timeoutMs
    · have hT : elapsed + 50 ≤ lastPollTime timeoutMs := by omega
      have hpend := promiseStateAt_pending_mono pb hp hT
      simp [hg, hpend, PromiseState.isSettled]
    · simp [hg]
  | succ f ih =>
    intro elapsed hf he
    unfold drainLoop
    by_cases hg : elapsed < timeoutMs
    · have hT : elapsed + 50 ≤ lastPollTime timeoutMs := by omega
      have hpend := promiseStateAt_pending_mono pb hp hT
      simp only [hg, if_true, hpend, PromiseState.isSettled,
        Bool.false_eq_true, if_false]
      exact ih (elapsed + 50) (by omega) (by omega)
    · simp [hg]

/-- Any promise still pending at the loop's final poll makes execute
report the pending tag as a successful result. -/
theorem executePromise_pending (pb : PromiseBehavior) (timeoutMs : Nat)
    (out : String)
    (hp : promiseStateAt pb (lastPollTime timeoutMs) = .pending) :
    Sandbox.execute (.promise pb) timeoutMs out
      = ({ success := true, result := pendingTag, output := out }, true) := by
  have h0 : promiseStateAt pb 0 = .pending :=
    promiseStateAt_pending_mono pb hp (Nat.zero_le _)
  have hd := drainLoop_pending_after pb timeoutMs hp 20 0 (le_refl 20) rfl
  simp [Sandbox.execute, h0, hd]

/-- C1 amended: for every promise that has not settled by the drain
loop's final poll — at 50 · min(⌈timeout / 50⌉, 21) ms, so whether it
never settles or settles only after the wall-clock budget or the
20-iteration cap — execute returns a SUCCESSFUL result tagged
`type: 'pending'`; there is no SandboxTimeout error.  The value handle
is still disposed on this path and Sandbox.dispose still releases the
vm and runtime handles. -/
theorem execute_pending_returns_success (pb : PromiseBehavior)
    (timeoutMs : Nat) (out : String)
    (hp : promiseStateAt pb (lastPollTime timeoutMs) = .pending)
    (s : SandboxHandles) :
    Sandbox.execute (.promise pb) timeoutMs out
      = ({ success := true, result := pendingTag, output := out }, true)
    ∧ (Sandbox.dispose s).vmAlive = false
    ∧ (Sandbox.dispose s).runtimeAlive = false :=
  ⟨executePromise_pending pb timeoutMs out hp, rfl, rfl⟩

/-- Witness for C1 amended at the spec's sleep-longer-than-timeout
case: a promise settling only at 10000 ms under a 5000 ms budget
(final poll at 1050 ms) is reported as the pending-tagged success. -/
theorem execute_pending_witness :
    Sandbox.execute (.promise ⟨some 10000, .rejected (.str "late")⟩) 5000 "hi"
      = ({ success := true, result := pendingTag, output := "hi" }, true)
    ∧ (Sandbox.dispose ⟨true, true⟩).vmAlive = false
    ∧ (Sandbox.dispose ⟨true, true⟩).runtimeAlive = false :=
  execute_pending_returns_success ⟨some 10000, .rejected (.str "late")⟩ 5000 "hi"
    rfl ⟨true, true⟩

/-! ### C2: rejected promises are materialized as successes -/

/-- C2 is false as stated: a promise rejected immediately with reason
"boom" makes execute return success = true carrying the tagged object
`type: 'rejected', error: "boom"` as the RESULT; no error field is
populated, so the settlement is not materialized as an error. -/
theorem execute_rejection_counterexample :
    (Sandbox.execute (.promise ⟨some 0, .rejected (.str "boom")⟩) 5000 "").1.success
        = true
    ∧ (Sandbox.execute (.promise ⟨some 0, .rejected (.str "boom")⟩) 5000 "").1.result
        = rejectedTag (.str "boom")
    ∧ (Sandbox.execute (.promise ⟨some 0, .rejected (.str "boom")⟩) 5000 "").1.error
        = "" :=
  ⟨rfl, rfl, rfl⟩

theorem drainLoop_observes (pb : PromiseBehavior) (timeoutMs s : Nat)
    (hset : pb.settleAt = some s)
    (hsettled : pb.settled.isSettled = true)
    (hs : s ≤ lastPollTime timeoutMs) :
    ∀ (fuel elapsed : Nat), fuel ≤ 20 → elapsed = 50 * (20 - fuel) →
      elapsed < s → drainLoop pb timeoutMs elapsed fuel = pb.settled := by
  have hl : lastPollTime timeoutMs = 50 * min ((timeoutMs + 49) / 50) 21 := rfl
  intro fuel
  induction fuel with
  | zero =>
    intro elapsed _ he hlt
    have hg : elapsed < timeoutMs := by omega
    have hobs : s ≤ elapsed + 50 := by omega
    unfold drainLoop
    have hcur : promiseStateAt pb (elapsed + 50) = pb.settled := by
      simp only [promiseStateAt, hset]
      rw [if_pos hobs]
    simp [hg, hcur, hsettled]
  | succ f ih =>
    intro elapsed hf he hlt
    have hg : elapsed < timeoutMs := by omega
    unfold drainLoop
    by_cases hobs : s ≤ elapsed + 50
    · have hcur : promiseStateAt pb (elapsed + 50) = pb.settled := by
        simp only [promiseStateAt, hset]
        rw [if_pos hobs]
      simp [hg, hcur, hsettled]
    · have hcur : promiseStateAt pb (elapsed + 50) = .pending := by
        simp only [promiseStateAt, hset]
        rw [if_neg hobs]
      simp only [hg, if_true, hcur, PromiseState.isSettled,
        Bool.false_eq_true, if_false]
      exact ih (elapsed + 50) (by omega) (by omega) (by omega)

/-- C2 amended: a promise whose rejection has settled by the drain
loop's corresponding poll — that is, by the final poll at
50 · min(⌈timeout / 50⌉, 21) ms, in particular any rejection already
settled at inspection — is materialized as a SUCCESSFUL result tagged
`type: 'rejected'` carrying the dumped rejection reason, and the
formatted reply is the arrow-prefixed JSON rendering of that tag
object, not "Error: …".  A rejection settling after the final poll is
reported as the pending-tagged success like any unsettled value. -/
theorem execute_rejected_materializes_success (reason : JSVal)
    (s timeoutMs : Nat) (out : String)
    (hs : s ≤ lastPollTime timeoutMs) :
    Sandbox.execute (.promise ⟨some s, .rejected reason⟩) timeoutMs out
      = ({ success := true, result := rejectedTag reason, output := out }, true)
    ∧ (out = "" →
        formatResult
            (Sandbox.execute (.promise ⟨some s, .rejected reason⟩) timeoutMs out).1
          = "=> " ++ jsonStringifyTop (rejectedTag reason))
    ∧ (∀ s2, lastPollTime timeoutMs < s2 →
        Sandbox.execute (.promise ⟨some s2, .rejected reason⟩) timeoutMs out
          = ({ success := true, result := pendingTag, output := out }, true)) := by
  have hex : Sandbox.execute (.promise ⟨some s, .rejected reason⟩) timeoutMs out
      = ({ success := true, result := rejectedTag reason, output := out }, true) := by
    by_cases hs0 : s = 0
    · subst hs0
      simp [Sandbox.execute, promiseStateAt]
    · have h0 : promiseStateAt ⟨some s, .rejected reason⟩ 0 = .pending := by
        show (if s ≤ 0 then PromiseState.rejected reason else .pending) = .pending
        rw [if_neg (by omega)]
      have hd := drainLoop_observes ⟨some s, .rejected reason⟩ timeoutMs s rfl rfl
        hs 20 0 (le_refl 20) rfl (by omega)
      simp [Sandbox.execute, h0, hd]
  refine ⟨hex, ?_, ?_⟩
  · intro hout
    rw [hex]
    have harrow : "=> " ++ jsonStringifyTop (rejectedTag reason) ≠ "" :=
      append_ne_empty_left _ _ (by decide)
    have ht1 : jsTypeOf (rejectedTag reason) = "object" := rfl
    have ht2 : (rejectedTag reason).isUndef = false := rfl
    simp [formatResult, hout, ht1, ht2, harrow, string_empty_append]
  · intro s2 hs2
    apply executePromise_pending
    show (if s2 ≤ lastPollTime timeoutMs then PromiseState.rejected reason
      else .pending) = .pending
    rw [if_neg (by omega)]

/-- Witness for C2 amended: under a 5000 ms budget (final poll at
1050 ms), a rejection settling at 100 ms — past the first poll but
inside the horizon — is reported as the rejected-tagged success with
the JSON-rendered reply, and a rejection settling only at 2000 ms is
reported as the pending-tagged success. -/
theorem execute_rejected_witness :
    Sandbox.execute (.promise ⟨some 100, .rejected (.str "boom")⟩) 5000 "x"
      = ({ success := true, result := rejectedTag (.str "boom"), output := "x" }, true)
    ∧ formatResult
        (Sandbox.execute (.promise ⟨some 100, .rejected (.str "boom")⟩) 5000 "").1
      = "=> " ++ jsonStringifyTop (rejectedTag (.str "boom"))
    ∧ Sandbox.execute (.promise ⟨some 2000, .rejected (.str "boom")⟩) 5000 "x"
      = ({ success := true, result := pendingTag, output := "x" }, true) :=
  ⟨(execute_rejected_materializes_success (.str "boom") 100 5000 "x"
      (by decide)).1,
   (execute_rejected_materializes_success (.str "boom") 100 5000 ""
      (by decide)).2.1 rfl,
   (execute_rejected_materializes_success (.str "boom") 100 5000 "x"
      (by decide)).2.2 2000 (by decide)⟩

/-! ### C6: extractCode idempotence -/

theorem dropWhile_dropWhile (p : Char → Bool) (l : List Char) :
    List.dropWhile p (List.dropWhile p l) = List.dropWhile p l := by
  induction l with
  | nil => rfl
  | cons a t ih =>
    by_cases ha : p a
    · simp [List.dropWhile_cons, ha, ih]
    · simp [List.dropWhile_cons, ha]

theorem dropWhile_head_false (p : Char → Bool) :
    ∀ (l : List Char) (a : Char) (t : List Char),
      List.dropWhile p l = a :: t → p a = false := by
  intro l
  induction l with
  | nil => intro a t h; cases h
  | cons b r ih =>
    intro a t h
    by_cases hb : p b
    · rw [List.dropWhile_cons, if_pos hb] at h
      exact ih a t h
    · rw [List.dropWhile_cons, if_neg hb] at h
      cases h
      simpa using hb

theorem dropWhile_append_single (p : Char → Bool) (l : List Char) (x : Char)
    (hx : p x = false) :
    List.dropWhile p (l ++ [x]) = List.dropWhile p l ++ [x] := by
  induction l with
  | nil => simp [List.dropWhile_cons, hx]
  | cons a t ih =>
    by_cases ha : p a
    · simp [List.dropWhile_cons, ha, ih]
    · simp [List.dropWhile_cons, ha]

theorem jsTrimChars_idem (l : List Char) :
    jsTrimChars (jsTrimChars l) = jsTrimChars l := by
  unfold jsTrimChars
  have h1 : List.dropWhile jsWs
        (List.dropWhile jsWs (List.dropWhile jsWs l).reverse).reverse
      = (List.dropWhile jsWs (List.dropWhile jsWs l).reverse).reverse := by
    cases hAe : List.dropWhile jsWs l with
    | nil => simp
    | cons a t =>
      have ha : jsWs a = false := dropWhile_head_false jsWs l a t hAe
      rw [List.reverse_cons, dropWhile_append_single jsWs _ _ ha,
        List.reverse_append]
      simp [List.dropWhile_cons, ha]
  rw [h1, List.reverse_reverse, dropWhile_dropWhile]

theorem jsTrim_idem (s : String) : jsTrim (jsTrim s) = jsTrim s := by
  unfold jsTrim
  exact congrArg String.mk (jsTrimChars_idem s.data)

/-- C6 is false as stated: with bot handle "h", the post text "@@hh x"
extracts to the code "@h x" (removing the inner mention splices a new
one together, which the single regex pass does not revisit), and
re-extracting that code yields "x", a different code string. -/
theorem extractCode_idem_counterexample :
    (CommandParser.extractCode ⟨some "h", none⟩ { text := some "@@hh x" }).code
        = "@h x"
    ∧ (CommandParser.extractCode ⟨some "h", none⟩
        { text := some (CommandParser.extractCode ⟨some "h", none⟩
            { text := some "@@hh x" }).code }).code = "x"
    ∧ ("x" : String) ≠ "@h x" := by
  refine ⟨rfl, rfl, by decide⟩

/-- C6 amended: extractCode is idempotent exactly on the posts where
the handle-stripping pass leaves the already-extracted code unchanged
(re-application strips nothing and trimming is idempotent); deleting a
mention can splice a new `@handle` occurrence together, and on such
posts a second application removes more. -/
theorem extractCode_idem_of_stripped (p : CommandParser) (post : Post)
    (hstrip : ∀ h, p.botHandle = some h → h ≠ "" →
        stripHandle h (p.extractCode post).code = (p.extractCode post).code) :
    (p.extractCode { text := some (p.extractCode post).code, facets := none }).code
      = (p.extractCode post).code := by
  have hc : ∃ x, (p.extractCode post).code = jsTrim x := by
    obtain ⟨text, facets⟩ := post
    cases text with
    | none => exact ⟨"", rfl⟩
    | some t0 =>
      by_cases ht0 : t0 = ""
      · subst ht0
        exact ⟨"", rfl⟩
      · simp only [CommandParser.extractCode, if_neg ht0]
        exact ⟨_, rfl⟩
  generalize hgen : (p.extractCode post).code = c at hstrip hc ⊢
  obtain ⟨x, hx⟩ := hc
  by_cases hce : c = ""
  · subst hce
    simp [CommandParser.extractCode]
  · have hcode : (p.extractCode { text := some c, facets := none }).code
        = jsTrim (match p.botHandle with
            | none => c
            | some h => if h = "" then c else stripHandle h c) := by
      simp only [CommandParser.extractCode, if_neg hce]
    rw [hcode]
    cases hb : p.botHandle with
    | none =>
      rw [hx, jsTrim_idem]
    | some h =>
      by_cases hh : h = ""
      · simp only [if_pos hh]
        rw [hx, jsTrim_idem]
      · simp only [if_neg hh]
        rw [hstrip h hb hh, hx, jsTrim_idem]

/-- Witness for C6 amended: a post whose text carries one leading
mention extracts to "print(1)", on which re-extraction is the
identity. -/
theorem extractCode_idem_witness :
    (CommandParser.extractCode ⟨some "bot", none⟩
        { text := some (CommandParser.extractCode ⟨some "bot", none⟩
            { text := some "@bot print(1)" }).code }).code
      = (CommandParser.extractCode ⟨some "bot", none⟩
          { text := some "@bot print(1)" }).code :=
  extractCode_idem_of_stripped ⟨some "bot", none⟩ { text := some "@bot print(1)" }
    (by intro h hh hne; cases hh; rfl)

/-! ### C8: per-user cooldown, stamped on completion -/

theorem updateUserRateLimit_lookup_self (w : BotWorker) (author : String)
    (t : Int) :
    (updateUserRateLimit w author t).userLimits author = some t := by
  show (match (if author = author then some t else w.userLimits author) with
    | some ts => if ts < t - 3600000 then none else some ts
    | none => none) = some t
  rw [if_pos rfl]
  show (if t < t - 3600000 then (none : Option Int) else some t) = some t
  rw [if_neg (by omega)]

theorem processMention_admitted (w : BotWorker) (author : String)
    (ts tf : Int) (ok : Bool)
    (hq : ¬ w.maxQueueSize ≤ w.globalQueueSize)
    (hr : checkUserRateLimit w author ts = true) :
    processMention w author ts tf ok
      = (updateUserRateLimit
          (if ok then
            { w with
                globalQueueSize := w.globalQueueSize + 1 - 1,
                processed := w.processed + 1,
                successful := w.successful + 1 }
           else
            { w with
                globalQueueSize := w.globalQueueSize + 1 - 1,
                processed := w.processed + 1,
                failed := w.failed + 1 })
          author tf, true) := by
  simp only [processMention, if_neg hq, hr]
  cases ok <;> rfl

theorem processMention_rate_limited (w : BotWorker) (author : String)
    (ts tf : Int) (ok : Bool)
    (hq : ¬ w.maxQueueSize ≤ w.globalQueueSize)
    (hr : checkUserRateLimit w author ts = false) :
    processMention w author ts tf ok
      = ({ w with rateLimited := w.rateLimited + 1 }, false) := by
  simp [processMention, hq, hr]

/-- C8: two sequential mentions by the same author within cooldown_ms
of each other: the first is admitted and produces a reply (whether or
not execution succeeds), its cooldown stamp is written at completion
time (the finally path) rather than at admission, and the second is
rejected without a reply, incrementing rate_limited and leaving the
cooldown map untouched. -/
theorem cooldown_applied_on_completion (w0 : BotWorker) (author : String)
    (t1 t1' t2 t2' : Int) (execOk1 execOk2 : Bool)
    (hq : w0.globalQueueSize < w0.maxQueueSize)
    (hfirstOk : checkUserRateLimit w0 author t1 = true)
    (h1 : t1 ≤ t1') (h2 : t1' ≤ t2)
    (hcool : t2 - t1 < w0.userCooldown) :
    (processMention w0 author t1 t1' execOk1).2 = true
    ∧ (processMention w0 author t1 t1' execOk1).1.userLimits author = some t1'
    ∧ (processMention (processMention w0 author t1 t1' execOk1).1
          author t2 t2' execOk2).2 = false
    ∧ (processMention (processMention w0 author t1 t1' execOk1).1
          author t2 t2' execOk2).1.rateLimited
        = (processMention w0 author t1 t1' execOk1).1.rateLimited + 1
    ∧ (processMention (processMention w0 author t1 t1' execOk1).1
          author t2 t2' execOk2).1.userLimits
        = (processMention w0 author t1 t1' execOk1).1.userLimits := by
  have hq0 : ¬ w0.maxQueueSize ≤ w0.globalQueueSize := by omega
  rw [processMention_admitted w0 author t1 t1' execOk1 hq0 hfirstOk]
  have hlook : (updateUserRateLimit
      (if execOk1 then
        { w0 with
            globalQueueSize := w0.globalQueueSize + 1 - 1,
            processed := w0.processed + 1,
            successful := w0.successful + 1 }
       else
        { w0 with
            globalQueueSize := w0.globalQueueSize + 1 - 1,
            processed := w0.processed + 1,
            failed := w0.failed + 1 })
      author t1').userLimits author = some t1' := by
    cases execOk1 <;>
      simp only [Bool.false_eq_true, if_pos, if_neg, ite_false, ite_true] <;>
      exact updateUserRateLimit_lookup_self _ _ _
  set w1 := updateUserRateLimit
      (if execOk1 then
        { w0 with
            globalQueueSize := w0.globalQueueSize + 1 - 1,
            processed := w0.processed + 1,
            successful := w0.successful + 1 }
       else
        { w0 with
            globalQueueSize := w0.globalQueueSize + 1 - 1,
            processed := w0.processed + 1,
            failed := w0.failed + 1 })
      author t1' with hw1
  have hfq : w1.globalQueueSize = w0.globalQueueSize + 1 - 1 := by
    rw [hw1]; cases execOk1 <;> rfl
  have hfm : w1.maxQueueSize = w0.maxQueueSize := by
    rw [hw1]; cases execOk1 <;> rfl
  have hfc : w1.userCooldown = w0.userCooldown := by
    rw [hw1]; cases execOk1 <;> rfl
  have hq1 : ¬ w1.maxQueueSize ≤ w1.globalQueueSize := by
    rw [hfq, hfm]; omega
  have hr1 : checkUserRateLimit w1 author t2 = false := by
    simp only [checkUserRateLimit, hlook]
    rw [hfc]
    simp only [decide_eq_false_iff_not]
    omega
  rw [processMention_rate_limited w1 author t2 t2' execOk2 hq1 hr1]
  exact ⟨rfl, hlook, rfl, rfl, rfl⟩

/-- Witness for C8 at a concrete worker with a 5000 ms cooldown: the
first mention at time 0 completes at 10, the second at time 20 is
rejected. -/
theorem cooldown_applied_witness :
    (processMention ⟨fun _ => none, 5000, 0, 100, 0, 0, 0, 0⟩ "alice" 0 10 true).2
        = true
    ∧ (processMention ⟨fun _ => none, 5000, 0, 100, 0, 0, 0, 0⟩
          "alice" 0 10 true).1.userLimits "alice" = some 10
    ∧ (processMention (processMention ⟨fun _ => none, 5000, 0, 100, 0, 0, 0, 0⟩
          "alice" 0 10 true).1 "alice" 20 30 false).2 = false
    ∧ (processMention (processMention ⟨fun _ => none, 5000, 0, 100, 0, 0, 0, 0⟩
          "alice" 0 10 true).1 "alice" 20 30 false).1.rateLimited
        = (processMention ⟨fun _ => none, 5000, 0, 100, 0, 0, 0, 0⟩
            "alice" 0 10 true).1.rateLimited + 1
    ∧ (processMention (processMention ⟨fun _ => none, 5000, 0, 100, 0, 0, 0, 0⟩
          "alice" 0 10 true).1 "alice" 20 30 false).1.userLimits
        = (processMention ⟨fun _ => none, 5000, 0, 100, 0, 0, 0, 0⟩
            "alice" 0 10 true).1.userLimits :=
  cooldown_applied_on_completion ⟨fun _ => none, 5000, 0, 100, 0, 0, 0, 0⟩
    "alice" 0 10 20 30 true false (by decide) rfl (by decide) (by decide)
    (by decide)

end Smegmascript
